import Mathlib

/-!
# QueueCTL: the job lifecycle engine of `queuectl.js`

A shallow embedding of the job store operations of `src/QueueCTL/queuectl.js`
(`enqueue`, `nextJob`, `complete`, `fail`, `getBackoffDelay`, one iteration of
`worker`, and the action of the `dlq` command), followed by theorems about them.

Modelling conventions.

* The `jobs` table is the list of its rows in rowid order (rows are only ever
  appended and updated in place, never deleted). `id TEXT PRIMARY KEY` is the
  predicate `WF`: no two rows share an id.
* Every SQL statement (`db.get`, `db.run`) is one atomic step on the table.
* Each call of `nowISO()` and `Date.now()` is an explicit argument.
* `runCommand` is an argument of the worker: it maps a command line to the
  captured output, resolved (`Except.ok`) or rejected (`Except.error`).
* Writes to the table and `setTimeout` suspensions are recorded, in order, as a
  list of `Event`s. Console output is not modelled.
* JavaScript numbers are modelled by natural numbers; all values that occur
  are integers far below `2 ^ 53`, where double arithmetic is exact.
-/

namespace QueueCTL

/-! ## Data model -/

/-- The five values admitted by the `CHECK` constraint on the `state` column. -/
inductive State where
  | pending
  | processing
  | completed
  | failed
  | dead
deriving DecidableEq, Repr

/-- One row of the `jobs` table; the fields are the columns in order. -/
structure Job where
  id : String
  command : String
  state : State
  attempts : Nat
  max_retries : Nat
  created_at : String
  updated_at : String
  run_at : String
  last_error : Option String
  output : Option String
deriving DecidableEq, Repr

/-- The `jobs` table: its rows in rowid (insertion) order. -/
abbrev Store := List Job

/-- The ids of the rows, in order. -/
def ids (s : Store) : List String := s.map Job.id

/-- The `PRIMARY KEY` constraint on `id`: no two rows share an id. -/
def WF (s : Store) : Prop := (ids s).Nodup

instance (s : Store) : Decidable (WF s) := by
  unfold WF; infer_instance

/-- Errors raised by the database on an `INSERT`. -/
inductive DbError where
  | primaryKey
  | notNull
deriving DecidableEq, Repr

deriving instance DecidableEq for Except

/-- Observable effects of an operation, in the order they happen. -/
inductive Event where
  | wrote (s : Store)
  | slept (ms : Nat)
deriving DecidableEq, Repr

/-! ## SQL statements -/

/-- The statement `SELECT * FROM jobs WHERE state='pending' LIMIT 1`. -/
def selectPending (s : Store) : Option Job :=
  s.find? (fun j => decide (j.state = State.pending))

/-- The statement `SELECT ... FROM jobs WHERE id=?`. -/
def selectById (s : Store) (id : String) : Option Job :=
  s.find? (fun j => decide (j.id = id))

/-- The statement `SELECT * FROM jobs WHERE id=? AND state='dead'`. -/
def selectDeadById (s : Store) (id : String) : Option Job :=
  s.find? (fun j => decide (j.id = id) && decide (j.state = State.dead))

/-- The statement `UPDATE jobs SET ... WHERE id=?`, where `f` performs the
assignments of the `SET` clause on a row. -/
def updateWhereId (s : Store) (id : String) (f : Job → Job) : Store :=
  s.map (fun j => if j.id = id then f j else j)

/-- The statement `INSERT INTO jobs VALUES (?, ..., ?)`. A parameter that is
`undefined` in JavaScript is bound as `NULL`; `command TEXT NOT NULL` and
`id TEXT PRIMARY KEY` reject the row. -/
def insertJob (s : Store) (id : String) (command : Option String) (state : State)
    (attempts max_retries : Nat) (created_at updated_at run_at : String)
    (last_error output : Option String) : Except DbError Store :=
  match command with
  | none => Except.error DbError.notNull
  | some c =>
    if id ∈ ids s then Except.error DbError.primaryKey
    else Except.ok (s ++ [
      { id := id, command := c, state := state, attempts := attempts,
        max_retries := max_retries, created_at := created_at,
        updated_at := updated_at, run_at := run_at, last_error := last_error,
        output := output }])

/-- The table after a fallible statement: unchanged when it was rejected. -/
def storeAfter (s : Store) (r : Except DbError Store) : Store :=
  match r with
  | Except.ok s' => s'
  | Except.error _ => s

/-! ## Operations -/

/-- The parsed JSON argument of `enqueue`, an object whose properties `id` and
`command` are strings and `max_retries` a number; each may be absent. -/
structure EnqueueInput where
  id : Option String
  command : Option String
  max_retries : Option Nat
deriving DecidableEq, Repr

/-- JavaScript truthiness of an optional string: absent and `""` are falsy. -/
def truthy (v : Option String) : Option String :=
  v.filter (fun x => decide (x ≠ ""))

/-- The id used by `enqueue`: `job.id || "job-" + Date.now()`. -/
def enqueueId (job : EnqueueInput) (dateNow : Nat) : String :=
  (truthy job.id).getD ("job-" ++ toString dateNow)

/-- The function `enqueue(job)`; `dateNow` is the value of `Date.now()` and
`t1 t2 t3` are the three values of `nowISO()`. -/
def enqueue (s : Store) (job : EnqueueInput) (dateNow : Nat) (t1 t2 t3 : String) :
    Except DbError Store :=
  let id := enqueueId job dateNow
  insertJob s id job.command State.pending 0 3 t1 t2 t3 none none

/-- The function `nextJob()`: the row read, and the table afterwards. -/
def nextJob (s : Store) : Option Job × Store :=
  let row := selectPending s
  match row with
  | some r => (row, updateWhereId s r.id (fun j => { j with state := State.processing }))
  | none => (row, s)

/-- The function `complete(id, output)`. -/
def complete (s : Store) (id : String) (output : String) (t : String) : Store :=
  updateWhereId s id
    (fun j => { j with state := State.completed, output := some output, updated_at := t })

/-- The function `getBackoffDelay(attempts, base = 2)`. -/
def getBackoffDelay (attempts : Nat) (base : Nat := 2) : Nat :=
  base ^ attempts * 1000

/-- The function `fail(job, err)`; `job` is the row object held by the caller,
`t1` and `t2` are the values of `nowISO()` before and after the wait. -/
def fail (s : Store) (job : Job) (err : String) (t1 t2 : String) : Store × List Event :=
  let attempts := job.attempts + 1
  if attempts > job.max_retries then
    let s1 := updateWhereId s job.id
      (fun j => { j with state := State.dead, last_error := some err, updated_at := t1 })
    (s1, [Event.wrote s1])
  else
    let s1 := updateWhereId s job.id
      (fun j => { j with state := State.failed, attempts := attempts, updated_at := t1 })
    let delay := getBackoffDelay attempts
    let s2 := updateWhereId s1 job.id
      (fun j => { j with state := State.pending, updated_at := t2 })
    (s2, [Event.wrote s1, Event.slept delay, Event.wrote s2])

/-- One iteration of the `while (true)` loop of `worker()`. The result is the
table and the events of the iteration, or the exception that ends the loop
(reading `updated.state` when the row is gone). -/
def workerIteration (s : Store) (runCommand : String → Except String String)
    (tc t1 t2 : String) : Except String (Store × List Event) :=
  match nextJob s with
  | (none, s0) => Except.ok (s0, [Event.slept 1000])
  | (some job, s0) =>
    match runCommand job.command with
    | Except.ok out =>
      let s1 := complete s0 job.id out tc
      Except.ok (s1, [Event.wrote s0, Event.wrote s1])
    | Except.error err =>
      let r := fail s0 job err t1 t2
      match selectById r.1 job.id with
      | none => Except.error "TypeError"
      | some updated =>
        if updated.state = State.dead then
          Except.ok (r.1, Event.wrote s0 :: r.2)
        else
          let delay := getBackoffDelay (job.attempts + 1)
          Except.ok (r.1, Event.wrote s0 :: r.2 ++ [Event.slept delay])

/-- The options of the `dlq` command: the flag `--list` and `--retry <id>`. -/
structure DlqOpts where
  list : Bool
  retry : Option String
deriving DecidableEq, Repr

/-- What the `dlq` action reports on the console. -/
inductive DlqReport where
  | table (rows : List Job)
  | noDeadJob (id : String)
  | retried (id : String)
  | usage
deriving DecidableEq, Repr

/-- The outcome of the `dlq` action: the table, the exit status of the process
(the argument of `process.exit`, and 0 when the action returns), and the
report. -/
structure DlqResult where
  store : Store
  exitCode : Nat
  report : DlqReport
deriving DecidableEq, Repr

/-- The action of the `dlq` command; `t` is the value of `nowISO()`. -/
def dlq (s : Store) (opts : DlqOpts) (t : String) : DlqResult :=
  if opts.list then
    { store := s, exitCode := 0,
      report := DlqReport.table (s.filter (fun j => decide (j.state = State.dead))) }
  else
    match truthy opts.retry with
    | some id =>
      match selectDeadById s id with
      | none => { store := s, exitCode := 1, report := DlqReport.noDeadJob id }
      | some _ =>
        { store := updateWhereId s id
            (fun j => { j with state := State.pending, attempts := 0,
                               last_error := none, updated_at := t }),
          exitCode := 0, report := DlqReport.retried id }
    | none => { store := s, exitCode := 0, report := DlqReport.usage }

/-! ## Sequences of operations -/

/-- One claim-then-fail cycle of a worker whose command fails: `nextJob()`
followed, when a job was returned, by `fail(job, err)` on that job. The result
is the job claimed and the table afterwards. -/
def claimFail (s : Store) (err t1 t2 : String) : Option Job × Store :=
  match nextJob s with
  | (none, s0) => (none, s0)
  | (some job, s0) => (some job, (fail s0 job err t1 t2).1)

/-- Claim-then-fail cycles run one after the other; each element of `ps` gives
the error text and the two timestamps of one cycle. The result is the list of
the jobs claimed, cycle by cycle, and the final table. -/
def claimFailCycles (s : Store) : List (String × String × String) → List (Option Job) × Store
  | [] => ([], s)
  | p :: ps =>
    let r := claimFail s p.1 p.2.1 p.2.2
    let rest := claimFailCycles r.2 ps
    (r.1 :: rest.1, rest.2)

/-- How many of the cycles claimed the job with id `i`. -/
def claimsOf (i : String) (claimed : List (Option Job)) : Nat :=
  (claimed.map (Option.map Job.id)).count (some i)

/-! ## Concurrent calls of `nextJob` -/

/-- The progress of one call of `nextJob()`: before the `SELECT`, between the
`SELECT` and the `UPDATE` (holding the row read), and returned with its
result. -/
inductive Call where
  | start
  | selected (row : Option Job)
  | returned (row : Option Job)
deriving DecidableEq, Repr

/-- The next atomic step of a call of `nextJob()` against the table: the
`SELECT`, then the `UPDATE` (when a row was read) and the return. -/
def stepCall (s : Store) : Call → Store × Call
  | Call.start => (s, Call.selected (selectPending s))
  | Call.selected (some r) =>
    (updateWhereId s r.id (fun j => { j with state := State.processing }),
      Call.returned (some r))
  | Call.selected none => (s, Call.returned none)
  | Call.returned r => (s, Call.returned r)

/-- Concurrent calls of `nextJob()` sharing the table: `sched` names, step by
step, the call that takes its next atomic step. -/
def runCalls (s : Store) (calls : List Call) : List Nat → Store × List Call
  | [] => (s, calls)
  | k :: sched =>
    match calls.get? k with
    | none => runCalls s calls sched
    | some c =>
      let r := stepCall s c
      runCalls r.1 (calls.set k r.2) sched

/-- The total time, in milliseconds, of the suspensions among the events. -/
def totalSleep : List Event → Nat
  | [] => 0
  | Event.slept ms :: es => ms + totalSleep es
  | Event.wrote _ :: es => totalSleep es

/-! ## Sample tables -/

/-- A pending job as `enqueue` creates it. -/
def job1 : Job :=
  { id := "J1", command := "exit 1", state := State.pending, attempts := 0,
    max_retries := 3, created_at := "t0", updated_at := "t0", run_at := "t0",
    last_error := none, output := none }

/-- A table holding the one pending job `job1`. -/
def oneJob : Store := [job1]

/-- The error text and timestamps of four failing cycles. -/
def fourFailures : List (String × String × String) :=
  [("e1", "t1", "t2"), ("e2", "t3", "t4"), ("e3", "t5", "t6"), ("e4", "t7", "t8")]

/-- A table holding one dead job. -/
def deadJob : Store :=
  [{ job1 with state := State.dead, attempts := 3, last_error := some "e4" }]

/-- A table holding one completed job. -/
def doneJob : Store :=
  [{ job1 with state := State.completed, output := some "out" }]

/-! ## Lemmas on the SQL statements -/

theorem ids_updateWhereId (s : Store) (id : String) (f : Job → Job)
    (hf : ∀ j, (f j).id = j.id) : ids (updateWhereId s id f) = ids s := by
  unfold ids updateWhereId
  rw [List.map_map]
  apply List.map_congr_left
  intro j _
  simp only [Function.comp]
  split
  · exact hf j
  · rfl

theorem WF_updateWhereId (s : Store) (id : String) (f : Job → Job)
    (hf : ∀ j, (f j).id = j.id) (h : WF s) : WF (updateWhereId s id f) := by
  unfold WF
  rw [ids_updateWhereId s id f hf]
  exact h

theorem selectById_cons (a : Job) (l : Store) (i : String) :
    selectById (a :: l) i = if a.id = i then some a else selectById l i := by
  unfold selectById
  rw [List.find?_cons]
  by_cases h : a.id = i <;> simp [h]

theorem updateWhereId_cons (a : Job) (l : Store) (id : String) (f : Job → Job) :
    updateWhereId (a :: l) id f
      = (if a.id = id then f a else a) :: updateWhereId l id f := rfl

theorem selectById_updateWhereId_ne (s : Store) (id i : String) (f : Job → Job)
    (hf : ∀ j, (f j).id = j.id) (hne : i ≠ id) :
    selectById (updateWhereId s id f) i = selectById s i := by
  induction s with
  | nil => rfl
  | cons a l ih =>
    rw [updateWhereId_cons, selectById_cons, selectById_cons, ih]
    by_cases ha : a.id = id
    · have h1 : ¬ a.id = i := fun h => hne (h ▸ ha)
      rw [if_pos ha, hf, if_neg h1, if_neg h1]
    · rw [if_neg ha]

theorem selectById_updateWhereId_eq (s : Store) (id : String) (f : Job → Job)
    (hf : ∀ j, (f j).id = j.id) :
    selectById (updateWhereId s id f) id = (selectById s id).map f := by
  induction s with
  | nil => rfl
  | cons a l ih =>
    rw [updateWhereId_cons, selectById_cons, selectById_cons, ih]
    by_cases ha : a.id = id
    · rw [if_pos ha, hf, if_pos ha, if_pos ha]
      rfl
    · rw [if_neg ha, if_neg ha, if_neg ha]

theorem selectById_of_mem (s : Store) (h : WF s) (j : Job) (hj : j ∈ s) :
    selectById s j.id = some j := by
  induction s with
  | nil => cases hj
  | cons a l ih =>
    unfold WF ids at h
    rw [List.map_cons, List.nodup_cons] at h
    simp only [selectById, List.find?_cons]
    rcases List.mem_cons.mp hj with rfl | hl
    · simp
    · have hne : ¬ a.id = j.id := fun e => h.1 (e ▸ List.mem_map_of_mem Job.id hl)
      simp only [hne, decide_False]
      exact ih h.2 hl

theorem selectById_some (s : Store) (i : String) (j : Job) (h : selectById s i = some j) :
    j ∈ s ∧ j.id = i := by
  unfold selectById at h
  exact ⟨List.mem_of_find?_eq_some h, by simpa using List.find?_some h⟩

theorem selectPending_some (s : Store) (j : Job) (h : selectPending s = some j) :
    j ∈ s ∧ j.state = State.pending := by
  unfold selectPending at h
  exact ⟨List.mem_of_find?_eq_some h, by simpa using List.find?_some h⟩

theorem selectPending_none (s : Store) :
    selectPending s = none ↔ ∀ j ∈ s, j.state ≠ State.pending := by
  unfold selectPending
  simp [List.find?_eq_none]

theorem nextJob_some (s : Store) (j : Job) (h : selectPending s = some j) :
    nextJob s
      = (some j, updateWhereId s j.id (fun x => { x with state := State.processing })) := by
  simp [nextJob, h]

theorem nextJob_none (s : Store) (h : selectPending s = none) : nextJob s = (none, s) := by
  simp [nextJob, h]

/-! ## Claim (`nextJob`), run without interleaving -/

/-- C1. For every table satisfying the primary key constraint: if no job is
pending, `nextJob` returns nothing and leaves the table unchanged; otherwise it
returns a job of the table whose state was pending, afterwards the stored row
of that id is the same job with state processing (every other field equal), the
rows are the same ids in the same order, and the row of every other id is
unchanged. -/
theorem nextJob_claim (s : Store) (h : WF s) :
    ((∀ j ∈ s, j.state ≠ State.pending) → nextJob s = (none, s)) ∧
    ((∃ j ∈ s, j.state = State.pending) →
      ∃ j, (nextJob s).1 = some j ∧ j ∈ s ∧ j.state = State.pending ∧
        selectById (nextJob s).2 j.id = some { j with state := State.processing } ∧
        ids (nextJob s).2 = ids s ∧
        ∀ i, i ≠ j.id → selectById (nextJob s).2 i = selectById s i) := by
  constructor
  · intro hnone
    exact nextJob_none s ((selectPending_none s).mpr hnone)
  · rintro ⟨j0, hj0, hp0⟩
    cases hsel : selectPending s with
    | none => exact absurd hp0 ((selectPending_none s).mp hsel j0 hj0)
    | some j =>
      obtain ⟨hmem, hpend⟩ := selectPending_some s j hsel
      refine ⟨j, by rw [nextJob_some s j hsel], hmem, hpend, ?_, ?_, ?_⟩
      · rw [nextJob_some s j hsel]
        have e := selectById_updateWhereId_eq s j.id
          (fun x => { x with state := State.processing }) (by intro _; rfl)
        rw [selectById_of_mem s h j hmem] at e
        exact e
      · rw [nextJob_some s j hsel]
        exact ids_updateWhereId s j.id
          (fun x => { x with state := State.processing }) (by intro _; rfl)
      · intro i hi
        rw [nextJob_some s j hsel]
        exact selectById_updateWhereId_ne s j.id i
          (fun x => { x with state := State.processing }) (by intro _; rfl) hi

/-- C1 at the table `oneJob`: the pending job `J1` is returned and stored as
processing, and the ids of the table are as before. -/
theorem nextJob_claim_witness :
    WF oneJob ∧
    ∃ j, (nextJob oneJob).1 = some j ∧ j ∈ oneJob ∧ j.state = State.pending ∧
      selectById (nextJob oneJob).2 j.id = some { j with state := State.processing } ∧
      ids (nextJob oneJob).2 = ids oneJob :=
  ⟨by decide,
    Exists.imp (fun _ hj => ⟨hj.1, hj.2.1, hj.2.2.1, hj.2.2.2.1, hj.2.2.2.2.1⟩)
      ((nextJob_claim oneJob (by decide)).2 ⟨job1, List.mem_singleton.mpr rfl, rfl⟩)⟩

/-! ## The retry budget (`fail`) -/

theorem updateWhereId_twice (s : Store) (id : String) (f g : Job → Job)
    (hf : ∀ j, (f j).id = j.id) :
    updateWhereId (updateWhereId s id f) id g = updateWhereId s id (fun j => g (f j)) := by
  unfold updateWhereId
  rw [List.map_map]
  apply List.map_congr_left
  intro j _
  simp only [Function.comp]
  by_cases h : j.id = id
  · simp [h, hf]
  · simp [h]

theorem selectPending_cons (a : Job) (l : Store) :
    selectPending (a :: l) = if a.state = State.pending then some a else selectPending l := by
  unfold selectPending
  rw [List.find?_cons]
  by_cases h : a.state = State.pending <;> simp [h]

theorem selectPending_updateWhereId (s : Store) (h : WF s) (j : Job) (f : Job → Job)
    (hsel : selectPending s = some j) (hf : (f j).state = State.pending) :
    selectPending (updateWhereId s j.id f) = some (f j) := by
  induction s with
  | nil => cases hsel
  | cons a l ih =>
    unfold WF ids at h
    rw [List.map_cons, List.nodup_cons] at h
    rw [selectPending_cons] at hsel
    rw [updateWhereId_cons, selectPending_cons]
    by_cases ha : a.state = State.pending
    · rw [if_pos ha] at hsel
      cases hsel
      rw [if_pos rfl, if_pos hf]
    · rw [if_neg ha] at hsel
      have hmem := (selectPending_some l j hsel).1
      have hne : ¬ a.id = j.id := fun e => h.1 (e ▸ List.mem_map_of_mem Job.id hmem)
      rw [if_neg hne, if_neg ha]
      exact ih h.2 hsel

theorem claimFail_retry (s : Store) (j : Job) (err t1 t2 : String)
    (hsel : selectPending s = some j) (hle : j.attempts + 1 ≤ j.max_retries) :
    claimFail s err t1 t2
      = (some j, updateWhereId s j.id (fun x =>
          { x with state := State.pending, attempts := j.attempts + 1, updated_at := t2 })) := by
  have hn : ¬ j.attempts + 1 > j.max_retries := Nat.not_lt.mpr hle
  unfold claimFail
  rw [nextJob_some s j hsel]
  simp only [fail, if_neg hn]
  rw [updateWhereId_twice, updateWhereId_twice]
  · intro _; rfl
  · intro _; rfl

theorem claimFail_dead (s : Store) (j : Job) (err t1 t2 : String)
    (hsel : selectPending s = some j) (hgt : j.attempts + 1 > j.max_retries) :
    claimFail s err t1 t2
      = (some j, updateWhereId s j.id (fun x =>
          { x with state := State.dead, last_error := some err, updated_at := t1 })) := by
  unfold claimFail
  rw [nextJob_some s j hsel]
  simp only [fail, if_pos hgt]
  rw [updateWhereId_twice]
  intro _; rfl

theorem fail_dead_eq (s : Store) (job : Job) (err t1 t2 : String)
    (hgt : job.attempts + 1 > job.max_retries) :
    fail s job err t1 t2
      = (updateWhereId s job.id (fun j =>
            { j with state := State.dead, last_error := some err, updated_at := t1 }),
         [Event.wrote (updateWhereId s job.id (fun j =>
            { j with state := State.dead, last_error := some err, updated_at := t1 }))]) := by
  simp only [fail, if_pos hgt]

theorem fail_retry_eq (s : Store) (job : Job) (err t1 t2 : String)
    (hle : ¬ job.attempts + 1 > job.max_retries) :
    fail s job err t1 t2
      = (updateWhereId (updateWhereId s job.id (fun j =>
            { j with state := State.failed, attempts := job.attempts + 1, updated_at := t1 }))
            job.id (fun j => { j with state := State.pending, updated_at := t2 }),
         [Event.wrote (updateWhereId s job.id (fun j =>
            { j with state := State.failed, attempts := job.attempts + 1, updated_at := t1 })),
          Event.slept (getBackoffDelay (job.attempts + 1)),
          Event.wrote (updateWhereId (updateWhereId s job.id (fun j =>
            { j with state := State.failed, attempts := job.attempts + 1, updated_at := t1 }))
            job.id (fun j => { j with state := State.pending, updated_at := t2 }))]) := by
  simp only [fail, if_neg hle]

theorem selectById_fail_ne (s : Store) (job : Job) (err t1 t2 i : String) (hne : i ≠ job.id) :
    selectById (fail s job err t1 t2).1 i = selectById s i := by
  by_cases hgt : job.attempts + 1 > job.max_retries
  · rw [fail_dead_eq s job err t1 t2 hgt]
    exact selectById_updateWhereId_ne s job.id i _ (by intro _; rfl) hne
  · rw [fail_retry_eq s job err t1 t2 hgt]
    show selectById (updateWhereId (updateWhereId s job.id _) job.id _) i = _
    rw [selectById_updateWhereId_ne, selectById_updateWhereId_ne]
    · intro _; rfl
    · exact hne
    · intro _; rfl
    · exact hne

theorem ids_fail (s : Store) (job : Job) (err t1 t2 : String) :
    ids (fail s job err t1 t2).1 = ids s := by
  by_cases hgt : job.attempts + 1 > job.max_retries
  · rw [fail_dead_eq s job err t1 t2 hgt]
    exact ids_updateWhereId s job.id _ (by intro _; rfl)
  · rw [fail_retry_eq s job err t1 t2 hgt]
    show ids (updateWhereId (updateWhereId s job.id _) job.id _) = _
    rw [ids_updateWhereId, ids_updateWhereId]
    · intro _; rfl
    · intro _; rfl

theorem ids_nextJob (s : Store) : ids (nextJob s).2 = ids s := by
  cases hsel : selectPending s with
  | none => rw [nextJob_none s hsel]
  | some j =>
    rw [nextJob_some s j hsel]
    exact ids_updateWhereId s j.id _ (by intro _; rfl)

/-! The primary key constraint holds of the empty table and is kept by every
operation. -/

theorem WF_nil : WF [] := List.nodup_nil

theorem WF_nextJob (s : Store) (h : WF s) : WF (nextJob s).2 := by
  unfold WF
  rw [ids_nextJob]
  exact h

theorem WF_fail (s : Store) (h : WF s) (job : Job) (err t1 t2 : String) :
    WF (fail s job err t1 t2).1 := by
  unfold WF
  rw [ids_fail]
  exact h

theorem WF_complete (s : Store) (h : WF s) (id out t : String) :
    WF (complete s id out t) :=
  WF_updateWhereId s id _ (by intro _; rfl) h

theorem WF_enqueue (s : Store) (h : WF s) (job : EnqueueInput) (dateNow : Nat)
    (t1 t2 t3 : String) : WF (storeAfter s (enqueue s job dateNow t1 t2 t3)) := by
  unfold enqueue insertJob
  cases job.command with
  | none => exact h
  | some c =>
    by_cases hid : enqueueId job dateNow ∈ ids s
    · simp only [hid, if_true]
      exact h
    · simp only [hid, if_false]
      show (ids (s ++ [_])).Nodup
      unfold ids
      rw [List.map_append, List.map_singleton]
      exact List.Nodup.append h (List.nodup_singleton _)
        (List.disjoint_singleton.mpr hid)

/-- A row that is not pending is neither returned nor changed by `nextJob`. -/
theorem nextJob_not_pending (s : Store) (h : WF s) (i : String) (x : Job)
    (hx : selectById s i = some x) (hs : x.state ≠ State.pending) :
    (∀ j, (nextJob s).1 = some j → j.id ≠ i) ∧ selectById (nextJob s).2 i = some x := by
  cases hsel : selectPending s with
  | none =>
    rw [nextJob_none s hsel]
    exact ⟨fun j hj => (by cases hj), hx⟩
  | some p =>
    obtain ⟨hp, hpend⟩ := selectPending_some s p hsel
    have hne : p.id ≠ i := by
      intro e
      have := selectById_of_mem s h p hp
      rw [e, hx] at this
      cases this
      exact hs hpend
    rw [nextJob_some s p hsel]
    refine ⟨fun j hj => ?_, ?_⟩
    · cases hj
      exact hne
    · show selectById (updateWhereId s p.id _) i = _
      rw [selectById_updateWhereId_ne]
      · exact hx
      · intro _; rfl
      · exact Ne.symm hne

theorem ids_claimFail (s : Store) (err t1 t2 : String) :
    ids (claimFail s err t1 t2).2 = ids s := by
  unfold claimFail
  cases hsel : selectPending s with
  | none => rw [nextJob_none s hsel]
  | some j =>
    rw [nextJob_some s j hsel]
    show ids (fail _ j err t1 t2).1 = _
    rw [ids_fail]
    exact ids_updateWhereId s j.id _ (by intro _; rfl)

theorem WF_claimFail (s : Store) (h : WF s) (err t1 t2 : String) :
    WF (claimFail s err t1 t2).2 := by
  unfold WF
  rw [ids_claimFail]
  exact h

/-- A row that is not pending is neither claimed nor changed by a cycle. -/
theorem claimFail_not_pending (s : Store) (h : WF s) (err t1 t2 i : String) (x : Job)
    (hx : selectById s i = some x) (hs : x.state ≠ State.pending) :
    (claimFail s err t1 t2).1.map Job.id ≠ some i ∧
      selectById (claimFail s err t1 t2).2 i = some x := by
  obtain ⟨h1, h2⟩ := nextJob_not_pending s h i x hx hs
  unfold claimFail
  cases hn : nextJob s with
  | mk o s0 =>
    rw [hn] at h1 h2
    cases o with
    | none => exact ⟨by simp, h2⟩
    | some j =>
      have hne : j.id ≠ i := h1 j rfl
      refine ⟨by simpa using hne, ?_⟩
      show selectById (fail s0 j err t1 t2).1 i = some x
      rw [selectById_fail_ne s0 j err t1 t2 i (Ne.symm hne)]
      exact h2

theorem claimsOf_cons (i : String) (o : Option Job) (l : List (Option Job)) :
    claimsOf i (o :: l) = claimsOf i l + if o.map Job.id = some i then 1 else 0 := by
  unfold claimsOf
  rw [List.map_cons, List.count_cons]
  simp

/-- A dead job stays as it is, and is claimed by none of the cycles. -/
theorem claimFailCycles_dead (ps : List (String × String × String)) :
    ∀ (s : Store) (i : String) (x : Job), WF s → selectById s i = some x →
      x.state = State.dead →
      selectById (claimFailCycles s ps).2 i = some x ∧
        claimsOf i (claimFailCycles s ps).1 = 0 := by
  induction ps with
  | nil =>
    intro s i x _ hx _
    exact ⟨hx, rfl⟩
  | cons p ps ih =>
    intro s i x h hx hd
    have hs : x.state ≠ State.pending := by rw [hd]; decide
    obtain ⟨h1, h2⟩ := claimFail_not_pending s h p.1 p.2.1 p.2.2 i x hx hs
    obtain ⟨h3, h4⟩ := ih _ i x (WF_claimFail s h p.1 p.2.1 p.2.2) h2 hd
    refine ⟨h3, ?_⟩
    show claimsOf i (_ :: _) = 0
    rw [claimsOf_cons, h4, if_neg h1]

/-- The cycles of a job that is first in line: while the budget lasts it comes
back pending with one more attempt; the failure after that makes it dead, with
the stored attempts where the last retry left them; it is claimed once per
cycle until then and never again. -/
theorem claimFailCycles_first (ps : List (String × String × String)) :
    ∀ (s : Store) (j : Job), WF s → selectPending s = some j →
      j.attempts ≤ j.max_retries →
      (ps.length ≤ j.max_retries - j.attempts →
        ∃ j', selectPending (claimFailCycles s ps).2 = some j' ∧ j'.id = j.id ∧
          j'.attempts = j.attempts + ps.length ∧ j'.max_retries = j.max_retries) ∧
      (j.max_retries - j.attempts < ps.length →
        ∃ j', selectById (claimFailCycles s ps).2 j.id = some j' ∧
          j'.state = State.dead ∧ j'.attempts = j.max_retries) ∧
      claimsOf j.id (claimFailCycles s ps).1
        = min ps.length (j.max_retries - j.attempts + 1) := by
  induction ps with
  | nil =>
    intro s j _ hsel _
    refine ⟨fun _ => ⟨j, hsel, rfl, rfl, rfl⟩, fun hlt => ?_, ?_⟩
    · simp at hlt
    · simp [claimFailCycles, claimsOf]
  | cons p ps ih =>
    intro s j h hsel hle
    have hmem := (selectPending_some s j hsel).1
    by_cases hb : j.attempts + 1 ≤ j.max_retries
    · -- a retry: the job is pending again, with one more attempt
      have hstep := claimFail_retry s j p.1 p.2.1 p.2.2 hsel hb
      have hsel1 := selectPending_updateWhereId s h j
        (fun x => { x with state := State.pending, attempts := j.attempts + 1,
                           updated_at := p.2.2 }) hsel rfl
      have hwf1 := WF_claimFail s h p.1 p.2.1 p.2.2
      rw [hstep] at hwf1
      obtain ⟨i1, i2, i3⟩ := ih _ _ hwf1 hsel1 hb
      have e : claimFailCycles s (p :: ps)
          = (some j :: (claimFailCycles (updateWhereId s j.id (fun x =>
                { x with state := State.pending, attempts := j.attempts + 1,
                         updated_at := p.2.2 })) ps).1,
             (claimFailCycles (updateWhereId s j.id (fun x =>
                { x with state := State.pending, attempts := j.attempts + 1,
                         updated_at := p.2.2 })) ps).2) := by
        show (_, _) = _
        rw [hstep]
      rw [e]
      refine ⟨fun hlen => ?_, fun hlen => ?_, ?_⟩
      · simp only [List.length_cons] at hlen
        obtain ⟨j', a1, a2, a3, a4⟩ := i1 (by simp only []; omega)
        refine ⟨j', a1, a2, ?_, a4⟩
        simp only [] at a3
        simp only [List.length_cons]
        omega
      · simp only [List.length_cons] at hlen
        exact i2 (by simp only []; omega)
      · simp only [] at i3
        have hif : (if Option.map Job.id (some j) = some j.id then 1 else 0) = 1 := if_pos rfl
        rw [claimsOf_cons, i3, hif]
        simp only [List.length_cons]
        omega
    · -- the budget is spent: the job is dead
      have hgt : j.attempts + 1 > j.max_retries := Nat.lt_of_not_le hb
      have hstep := claimFail_dead s j p.1 p.2.1 p.2.2 hsel hgt
      have hwf1 := WF_claimFail s h p.1 p.2.1 p.2.2
      rw [hstep] at hwf1
      have hrow : selectById (updateWhereId s j.id (fun x =>
          { x with state := State.dead, last_error := some p.1, updated_at := p.2.1 })) j.id
          = some { j with state := State.dead, last_error := some p.1, updated_at := p.2.1 } := by
        rw [selectById_updateWhereId_eq, selectById_of_mem s h j hmem]
        · rfl
        · intro _; rfl
      obtain ⟨d1, d2⟩ := claimFailCycles_dead ps _ j.id _ hwf1 hrow rfl
      have e : claimFailCycles s (p :: ps)
          = (some j :: (claimFailCycles (updateWhereId s j.id (fun x =>
                { x with state := State.dead, last_error := some p.1,
                         updated_at := p.2.1 })) ps).1,
             (claimFailCycles (updateWhereId s j.id (fun x =>
                { x with state := State.dead, last_error := some p.1,
                         updated_at := p.2.1 })) ps).2) := by
        show (_, _) = _
        rw [hstep]
      rw [e]
      refine ⟨fun hlen => ?_, fun _ => ⟨_, d1, rfl, ?_⟩, ?_⟩
      · simp only [List.length_cons] at hlen
        omega
      · show j.attempts = j.max_retries
        omega
      · have hif : (if Option.map Job.id (some j) = some j.id then 1 else 0) = 1 := if_pos rfl
        rw [claimsOf_cons, d2, hif]
        simp only [List.length_cons]
        omega

theorem WF_claimFailCycles (ps : List (String × String × String)) :
    ∀ s : Store, WF s → WF (claimFailCycles s ps).2 := by
  induction ps with
  | nil => intro s h; exact h
  | cons p ps ih =>
    intro s h
    exact ih _ (WF_claimFail s h p.1 p.2.1 p.2.2)

theorem selectById_of_mem_ids (s : Store) (i : String) (h : i ∈ ids s) :
    ∃ x, selectById s i = some x := by
  induction s with
  | nil => cases h
  | cons a l ih =>
    rw [selectById_cons]
    by_cases ha : a.id = i
    · exact ⟨a, if_pos ha⟩
    · rw [if_neg ha]
      unfold ids at h
      rw [List.map_cons, List.mem_cons] at h
      rcases h with h | h
      · exact absurd h.symm ha
      · exact ih h

theorem claimFail_other (s : Store) (p : Job) (err t1 t2 i : String)
    (hsel : selectPending s = some p) (hne : p.id ≠ i) :
    (claimFail s err t1 t2).1 = some p ∧
      selectById (claimFail s err t1 t2).2 i = selectById s i := by
  unfold claimFail
  rw [nextJob_some s p hsel]
  refine ⟨rfl, ?_⟩
  show selectById (fail _ p err t1 t2).1 i = _
  rw [selectById_fail_ne _ p err t1 t2 i (Ne.symm hne)]
  exact selectById_updateWhereId_ne s p.id i _ (by intro _; rfl) (Ne.symm hne)

theorem claimsOf_cons_self (i : String) (o : Option Job) (l : List (Option Job))
    (h : o.map Job.id = some i) : claimsOf i (o :: l) = claimsOf i l + 1 := by
  rw [claimsOf_cons, if_pos h]

theorem claimsOf_cons_other (i : String) (o : Option Job) (l : List (Option Job))
    (h : o.map Job.id ≠ some i) : claimsOf i (o :: l) = claimsOf i l := by
  rw [claimsOf_cons, if_neg h, Nat.add_zero]

/-- The cycles of any pending job, counted by the cycles that claim it: there
are at most `max_retries - attempts + 1` of them; while there are fewer the job
is stored pending with one more attempt per cycle; with that many it is stored
dead. -/
theorem claimFailCycles_any (ps : List (String × String × String)) :
    ∀ (s : Store) (j : Job), WF s → selectById s j.id = some j →
      j.state = State.pending → j.attempts ≤ j.max_retries →
      claimsOf j.id (claimFailCycles s ps).1 ≤ j.max_retries - j.attempts + 1 ∧
      (claimsOf j.id (claimFailCycles s ps).1 ≤ j.max_retries - j.attempts →
        ∃ j', selectById (claimFailCycles s ps).2 j.id = some j' ∧
          j'.state = State.pending ∧
          j'.attempts = j.attempts + claimsOf j.id (claimFailCycles s ps).1) ∧
      (claimsOf j.id (claimFailCycles s ps).1 = j.max_retries - j.attempts + 1 →
        ∃ j', selectById (claimFailCycles s ps).2 j.id = some j' ∧
          j'.state = State.dead) := by
  induction ps with
  | nil =>
    intro s j _ hrow hp _
    have e : claimsOf j.id (claimFailCycles s []).1 = 0 := rfl
    rw [e]
    exact ⟨Nat.zero_le _, fun _ => ⟨j, hrow, hp, rfl⟩, fun h0 => by omega⟩
  | cons p ps ih =>
    intro s j h hrow hp hle
    have hmem := (selectById_some s j.id j hrow).1
    cases hsel : selectPending s with
    | none => exact absurd hp ((selectPending_none s).mp hsel j hmem)
    | some q =>
      have hq := (selectPending_some s q hsel).1
      have hwf1 := WF_claimFail s h p.1 p.2.1 p.2.2
      have hcons : claimFailCycles s (p :: ps)
          = ((claimFail s p.1 p.2.1 p.2.2).1 ::
               (claimFailCycles (claimFail s p.1 p.2.1 p.2.2).2 ps).1,
             (claimFailCycles (claimFail s p.1 p.2.1 p.2.2).2 ps).2) := rfl
      rw [hcons]
      by_cases hqi : q.id = j.id
      · -- the cycle claims `j`
        have hqj : q = j := by
          have := selectById_of_mem s h q hq
          rw [hqi, hrow] at this
          exact (Option.some.inj this).symm
        rw [hqj] at hsel
        by_cases hb : j.attempts + 1 ≤ j.max_retries
        · have hstep := claimFail_retry s j p.1 p.2.1 p.2.2 hsel hb
          rw [hstep] at hwf1 ⊢
          have hrow1 : selectById (updateWhereId s j.id (fun x =>
                { x with state := State.pending, attempts := j.attempts + 1,
                         updated_at := p.2.2 })) j.id
              = some { j with state := State.pending, attempts := j.attempts + 1,
                              updated_at := p.2.2 } := by
            rw [selectById_updateWhereId_eq, hrow]
            · rfl
            · intro _; rfl
          have hi := ih _
            { j with state := State.pending, attempts := j.attempts + 1,
                     updated_at := p.2.2 } hwf1 hrow1 rfl hb
          simp only [] at hi ⊢
          rw [claimsOf_cons_self j.id (some j) _ rfl]
          generalize claimsOf j.id (claimFailCycles (updateWhereId s j.id (fun x =>
                { x with state := State.pending, attempts := j.attempts + 1,
                         updated_at := p.2.2 })) ps).1 = n at hi ⊢
          obtain ⟨i1, i2, i3⟩ := hi
          refine ⟨by clear i2 i3; omega, fun hn => ?_, fun hn => ?_⟩
          · obtain ⟨j', a1, a2, a3⟩ := i2 (by clear i2 i3; omega)
            exact ⟨j', a1, a2, by clear i2 i3; omega⟩
          · exact i3 (by clear i2 i3; omega)
        · have hgt : j.attempts + 1 > j.max_retries := Nat.lt_of_not_le hb
          have hstep := claimFail_dead s j p.1 p.2.1 p.2.2 hsel hgt
          rw [hstep] at hwf1 ⊢
          have hrow1 : selectById (updateWhereId s j.id (fun x =>
                { x with state := State.dead, last_error := some p.1,
                         updated_at := p.2.1 })) j.id
              = some { j with state := State.dead, last_error := some p.1,
                              updated_at := p.2.1 } := by
            rw [selectById_updateWhereId_eq, hrow]
            · rfl
            · intro _; rfl
          obtain ⟨d1, d2⟩ := claimFailCycles_dead ps _ j.id _ hwf1 hrow1 rfl
          simp only [] at d1 d2 ⊢
          rw [claimsOf_cons_self j.id (some j) _ rfl, d2]
          exact ⟨by omega, fun hn => by omega, fun _ => ⟨_, d1, rfl⟩⟩
      · -- the cycle claims another job
        obtain ⟨o1, o2⟩ := claimFail_other s q p.1 p.2.1 p.2.2 j.id hsel hqi
        rw [hrow] at o2
        have hi := ih _ j hwf1 o2 hp hle
        have hne : Option.map Job.id (claimFail s p.1 p.2.1 p.2.2).1 ≠ some j.id := by
          rw [o1]
          simpa using hqi
        simp only [] at hi ⊢
        rw [claimsOf_cons_other j.id _ _ hne]
        exact hi

/-- C3. Let `j` be a pending job, with `attempts = 0` and `max_retries = r`, of
a table satisfying the primary key constraint, and run any number of
claim-then-fail cycles (`nextJob` followed by `fail`). The cycles that claim
`j`, its failures, number at most `r + 1`; while they number `n ≤ r` the job is
stored pending with `attempts = n`; once they number `r + 1` it is stored dead
(and is claimed no more). When `j` is the job `nextJob` claims first, every
cycle claims it until it is dead: `k` cycles are `min k (r + 1)` failures.
Moreover a single call of `fail` on a job of the table stores it dead if and
only if the claimed job has `attempts + 1 > max_retries`, and otherwise writes
it failed, waits, and writes it pending. -/
theorem dlq_threshold (s : Store) (h : WF s) (j : Job) (r : Nat)
    (hmem : j ∈ s) (hp : j.state = State.pending) (ha : j.attempts = 0)
    (hr : j.max_retries = r) :
    (∀ ps : List (String × String × String),
      claimsOf j.id (claimFailCycles s ps).1 ≤ r + 1 ∧
      (claimsOf j.id (claimFailCycles s ps).1 ≤ r →
        ∃ j', selectById (claimFailCycles s ps).2 j.id = some j' ∧
          j'.state = State.pending ∧
          j'.attempts = claimsOf j.id (claimFailCycles s ps).1) ∧
      (claimsOf j.id (claimFailCycles s ps).1 = r + 1 →
        ∃ j', selectById (claimFailCycles s ps).2 j.id = some j' ∧
          j'.state = State.dead)) ∧
    (selectPending s = some j → ∀ ps : List (String × String × String),
      claimsOf j.id (claimFailCycles s ps).1 = min ps.length (r + 1)) ∧
    (∀ (s0 : Store) (job : Job) (err t1 t2 : String), job.id ∈ ids s0 →
      ((∃ x, selectById (fail s0 job err t1 t2).1 job.id = some x ∧ x.state = State.dead)
        ↔ job.attempts + 1 > job.max_retries) ∧
      (¬ job.attempts + 1 > job.max_retries →
        ∃ s1 s2 x1 x2,
          fail s0 job err t1 t2
            = (s2, [Event.wrote s1, Event.slept (getBackoffDelay (job.attempts + 1)),
                    Event.wrote s2]) ∧
          selectById s1 job.id = some x1 ∧ x1.state = State.failed ∧
          selectById s2 job.id = some x2 ∧ x2.state = State.pending)) := by
  have hle : j.attempts ≤ j.max_retries := by omega
  have hrow := selectById_of_mem s h j hmem
  refine ⟨fun ps => ?_, fun hsel ps => ?_, ?_⟩
  · have hany := claimFailCycles_any ps s j h hrow hp hle
    rw [ha, hr] at hany
    generalize claimsOf j.id (claimFailCycles s ps).1 = n at hany ⊢
    obtain ⟨a1, a2, a3⟩ := hany
    refine ⟨by clear a2 a3; omega, fun hn => ?_, fun hn => a3 (by clear a2 a3; omega)⟩
    obtain ⟨j', b1, b2, b3⟩ := a2 (by clear a2 a3; omega)
    exact ⟨j', b1, b2, by clear a2 a3; omega⟩
  · rw [(claimFailCycles_first ps s j h hsel hle).2.2, ha, hr]
    rfl
  · intro s0 job err t1 t2 hmem
    obtain ⟨x, hx⟩ := selectById_of_mem_ids s0 job.id hmem
    by_cases hgt : job.attempts + 1 > job.max_retries
    · refine ⟨⟨fun _ => hgt, fun _ => ?_⟩, fun hn => absurd hgt hn⟩
      rw [fail_dead_eq s0 job err t1 t2 hgt]
      refine ⟨{ x with state := State.dead, last_error := some err, updated_at := t1 }, ?_, rfl⟩
      show selectById (updateWhereId s0 job.id _) job.id = _
      rw [selectById_updateWhereId_eq, hx]
      · rfl
      · intro _; rfl
    · have e1 : selectById (updateWhereId s0 job.id (fun j =>
            { j with state := State.failed, attempts := job.attempts + 1, updated_at := t1 }))
            job.id
          = some { x with state := State.failed, attempts := job.attempts + 1,
                          updated_at := t1 } := by
        rw [selectById_updateWhereId_eq, hx]
        · rfl
        · intro _; rfl
      have e2 : selectById (updateWhereId (updateWhereId s0 job.id (fun j =>
            { j with state := State.failed, attempts := job.attempts + 1, updated_at := t1 }))
            job.id (fun j => { j with state := State.pending, updated_at := t2 })) job.id
          = some { x with state := State.pending, attempts := job.attempts + 1,
                          updated_at := t2 } := by
        rw [selectById_updateWhereId_eq, e1]
        · rfl
        · intro _; rfl
      refine ⟨⟨fun hd => ?_, fun hd => absurd hd hgt⟩, fun _ => ?_⟩
      · obtain ⟨y, hy, hdead⟩ := hd
        rw [fail_retry_eq s0 job err t1 t2 hgt] at hy
        have : some y = some { x with state := State.pending, attempts := job.attempts + 1,
                                      updated_at := t2 } := hy.symm.trans e2
        cases this
        cases hdead
      · exact ⟨_, _, _, _, fail_retry_eq s0 job err t1 t2 hgt, e1, rfl, e2, rfl⟩

/-- C3 at the table `oneJob` (`max_retries = 3`) and four cycles: all four
claim `J1`, and the fourth failure leaves it dead. -/
theorem dlq_threshold_witness :
    WF oneJob ∧ job1 ∈ oneJob ∧ job1.state = State.pending ∧ job1.attempts = 0 ∧
    job1.max_retries = 3 ∧
    claimsOf job1.id (claimFailCycles oneJob fourFailures).1
      = min fourFailures.length (3 + 1) ∧
    (∃ j', selectById (claimFailCycles oneJob fourFailures).2 job1.id = some j' ∧
      j'.state = State.dead) :=
  ⟨by decide, by decide, rfl, rfl, rfl,
    (dlq_threshold oneJob (by decide) job1 3 (by decide) rfl rfl rfl).2.1 (by decide)
      fourFailures,
    ((dlq_threshold oneJob (by decide) job1 3 (by decide) rfl rfl rfl).1 fourFailures).2.2
      (by decide)⟩

/-! ## The stored attempts counter -/

/-- C4, evaluated. The job `J1` is enqueued with the default budget of three
retries and fails four times. It is then dead, and its stored `attempts` is 3,
not the number 4 of failures recorded against it: the update that makes a job
dead does not write `attempts`. -/
theorem attempts_not_written_on_dead :
    enqueue [] { id := some "J1", command := some "exit 1", max_retries := none }
        0 "t0" "t0" "t0" = Except.ok oneJob ∧
    fourFailures.length = 4 ∧
    selectById (claimFailCycles oneJob fourFailures).2 "J1"
      = some { job1 with state := State.dead, attempts := 3, last_error := some "e4",
                         updated_at := "t7" } := by
  refine ⟨?_, rfl, ?_⟩ <;> decide

/-! ## Enqueue -/

/-- C5, refuted as stated. A supplied `max_retries` of 5 is not stored: the new
job has `max_retries = 3`. And a supplied id that is the empty string is
replaced by a generated id. -/
theorem enqueue_ignores_max_retries :
    (enqueue [] { id := some "J1", command := some "echo hi", max_retries := some 5 }
        0 "t0" "t0" "t0"
      = Except.ok [{ id := "J1", command := "echo hi", state := State.pending,
                     attempts := 0, max_retries := 3, created_at := "t0",
                     updated_at := "t0", run_at := "t0", last_error := none,
                     output := none }]) ∧
    (3 : Nat) ≠ 5 ∧
    (enqueue [] { id := some "", command := some "echo hi", max_retries := none }
        7 "t0" "t0" "t0"
      = Except.ok [{ id := "job-7", command := "echo hi", state := State.pending,
                     attempts := 0, max_retries := 3, created_at := "t0",
                     updated_at := "t0", run_at := "t0", last_error := none,
                     output := none }]) := by
  refine ⟨?_, ?_, ?_⟩ <;> decide

/-- C5, amended. For every input record with a non-empty command whose id (the
supplied id when it is a non-empty string, otherwise the generated
`"job-" + Date.now()`) is not in the table, `enqueue` appends exactly one job:
that id, the supplied command, state pending, `attempts = 0`, `last_error` and
`output` null, the three timestamps, and `max_retries = 3` whatever the record
supplies. The jobs already in the table are unchanged. -/
theorem enqueue_post (s : Store) (job : EnqueueInput) (c : String) (dateNow : Nat)
    (t1 t2 t3 : String) (hc : job.command = some c) (_hne : c ≠ "")
    (hid : enqueueId job dateNow ∉ ids s) :
    enqueue s job dateNow t1 t2 t3
      = Except.ok (s ++ [{ id := enqueueId job dateNow, command := c,
                           state := State.pending, attempts := 0, max_retries := 3,
                           created_at := t1, updated_at := t2, run_at := t3,
                           last_error := none, output := none }]) ∧
    (∀ i, job.id = some i → i ≠ "" → enqueueId job dateNow = i) ∧
    (job.id = none ∨ job.id = some "" →
      enqueueId job dateNow = "job-" ++ toString dateNow) := by
  refine ⟨?_, fun i hi hne => ?_, fun hj => ?_⟩
  · simp only [enqueue, insertJob, hc, if_neg hid]
  · simp [enqueueId, truthy, hi, Option.filter, hne]
  · rcases hj with hj | hj <;> simp [enqueueId, truthy, hj, Option.filter]

/-- C5, amended, at the empty table with a record that supplies
`max_retries = 5`. -/
theorem enqueue_post_witness :
    "echo hi" ≠ "" ∧
    enqueue [] { id := some "J1", command := some "echo hi", max_retries := some 5 }
        0 "t0" "t1" "t2"
      = Except.ok ([] ++ [{ id := enqueueId { id := some "J1", command := some "echo hi",
                                              max_retries := some 5 } 0,
                            command := "echo hi",
                            state := State.pending, attempts := 0, max_retries := 3,
                            created_at := "t0", updated_at := "t1", run_at := "t2",
                            last_error := none, output := none }]) :=
  ⟨by decide,
    (enqueue_post [] { id := some "J1", command := some "echo hi", max_retries := some 5 }
      "echo hi" 0 "t0" "t1" "t2" rfl (by decide) (by decide)).1⟩

/-- C6, refuted as stated. A record whose command is the empty string is
accepted: the job is persisted, pending, with the empty command. -/
theorem enqueue_accepts_empty_command :
    enqueue [] { id := some "J1", command := some "", max_retries := none }
        0 "t0" "t0" "t0"
      = Except.ok [{ id := "J1", command := "", state := State.pending,
                     attempts := 0, max_retries := 3, created_at := "t0",
                     updated_at := "t0", run_at := "t0", last_error := none,
                     output := none }] := by
  decide

/-- C6, amended. For every table and every input record: if the command is
missing, `enqueue` fails, with the `NOT NULL` error of the `command` column,
and the table is unchanged; if the command is the empty string, `enqueue` does
not reject it: when the id of the record is not in the table the job is
appended, pending, with the empty command, and every job already in the table
is unchanged (when the id is in the table, the insert fails on the primary
key, as it does for any command). -/
theorem enqueue_missing_command (s : Store) (job : EnqueueInput) (dateNow : Nat)
    (t1 t2 t3 : String) :
    (job.command = none →
      enqueue s job dateNow t1 t2 t3 = Except.error DbError.notNull ∧
      storeAfter s (enqueue s job dateNow t1 t2 t3) = s) ∧
    (job.command = some "" → enqueueId job dateNow ∉ ids s →
      enqueue s job dateNow t1 t2 t3
        = Except.ok (s ++ [{ id := enqueueId job dateNow, command := "",
                             state := State.pending, attempts := 0, max_retries := 3,
                             created_at := t1, updated_at := t2, run_at := t3,
                             last_error := none, output := none }])) ∧
    (job.command = some "" → enqueueId job dateNow ∈ ids s →
      enqueue s job dateNow t1 t2 t3 = Except.error DbError.primaryKey ∧
      storeAfter s (enqueue s job dateNow t1 t2 t3) = s) := by
  refine ⟨fun hc => ?_, fun hc hid => ?_, fun hc hid => ?_⟩
  · have e : enqueue s job dateNow t1 t2 t3 = Except.error DbError.notNull := by
      simp only [enqueue, insertJob, hc]
    exact ⟨e, by rw [e]; rfl⟩
  · simp only [enqueue, insertJob, hc, if_neg hid]
  · have e : enqueue s job dateNow t1 t2 t3 = Except.error DbError.primaryKey := by
      simp only [enqueue, insertJob, hc, if_pos hid]
    exact ⟨e, by rw [e]; rfl⟩

/-- C6, amended, at the table `oneJob`: the record with no property is
rejected and the table is unchanged; the record with id `J2` and the empty
command is appended to the table. -/
theorem enqueue_missing_command_witness :
    (enqueue oneJob { id := none, command := none, max_retries := none } 0 "t0" "t0" "t0"
        = Except.error DbError.notNull ∧
      storeAfter oneJob
        (enqueue oneJob { id := none, command := none, max_retries := none }
          0 "t0" "t0" "t0")
        = oneJob) ∧
    enqueueId { id := some "J2", command := some "", max_retries := none } 0 ∉ ids oneJob ∧
    enqueue oneJob { id := some "J2", command := some "", max_retries := none }
        0 "t0" "t1" "t2"
      = Except.ok (oneJob ++ [{ id := enqueueId { id := some "J2", command := some "",
                                                  max_retries := none } 0,
                                command := "", state := State.pending, attempts := 0,
                                max_retries := 3, created_at := "t0", updated_at := "t1",
                                run_at := "t2", last_error := none, output := none }]) ∧
    enqueueId { id := some "J1", command := some "", max_retries := none } 0 ∈ ids oneJob ∧
    enqueue oneJob { id := some "J1", command := some "", max_retries := none }
        0 "t0" "t1" "t2"
      = Except.error DbError.primaryKey :=
  ⟨(enqueue_missing_command oneJob { id := none, command := none, max_retries := none }
      0 "t0" "t0" "t0").1 rfl,
   by decide,
   (enqueue_missing_command oneJob { id := some "J2", command := some "", max_retries := none }
      0 "t0" "t1" "t2").2.1 rfl (by decide),
   by decide,
   ((enqueue_missing_command oneJob { id := some "J1", command := some "", max_retries := none }
      0 "t0" "t1" "t2").2.2 rfl (by decide)).1⟩

/-! ## Concurrent claims -/

/-- The two steps of a call, run back to back, are `nextJob`. -/
theorem stepCall_twice (s : Store) :
    stepCall (stepCall s Call.start).1 (stepCall s Call.start).2
      = ((nextJob s).2, Call.returned (nextJob s).1) := by
  cases hsel : selectPending s with
  | none => simp [stepCall, nextJob, hsel]
  | some j => simp [stepCall, nextJob, hsel]

/-- Whatever the table, when two calls both read before either writes, both
return the job that was first in line. -/
theorem runCalls_race (s : Store) (j : Job) (hsel : selectPending s = some j) :
    (runCalls s [Call.start, Call.start] [0, 1, 0, 1]).2
      = [Call.returned (some j), Call.returned (some j)] := by
  simp [runCalls, stepCall, hsel]

/-- C2, evaluated. Two calls of `nextJob` run against the table `oneJob`, which
holds exactly one pending job. When both calls read before either writes
(schedule 0, 1, 0, 1), both return the job `J1`. When one call finishes before
the other starts (schedule 0, 0, 1, 1), only the first returns it. -/
theorem nextJob_double_claim :
    WF oneJob ∧ oneJob.filter (fun j => decide (j.state = State.pending)) = [job1] ∧
    (runCalls oneJob [Call.start, Call.start] [0, 1, 0, 1]).2
      = [Call.returned (some job1), Call.returned (some job1)] ∧
    (runCalls oneJob [Call.start, Call.start] [0, 0, 1, 1]).2
      = [Call.returned (some job1), Call.returned none] := by
  refine ⟨?_, ?_, ?_, ?_⟩ <;> decide

/-! ## Backoff -/

/-- C9. For every `attempts` from 1 to 10 and every `base` in 2, 3,
`getBackoffDelay(attempts, base)` is `base ^ attempts * 1000`, and with the
base omitted it is `2 ^ attempts * 1000`. The values are integers below
`2 ^ 53`, so the double arithmetic of `Math.pow` and `*` is exact on them. -/
theorem getBackoffDelay_formula (attempts base : Nat) (h1 : 1 ≤ attempts)
    (h10 : attempts ≤ 10) (hb : base = 2 ∨ base = 3) :
    getBackoffDelay attempts base = base ^ attempts * 1000 ∧
    getBackoffDelay attempts = 2 ^ attempts * 1000 ∧
    getBackoffDelay attempts base < 2 ^ 53 := by
  refine ⟨rfl, rfl, ?_⟩
  unfold getBackoffDelay
  rcases hb with rfl | rfl <;> interval_cases attempts <;> decide

/-- C9 at `attempts = 10`, `base = 3`: the delay is 59049000 ms. -/
theorem getBackoffDelay_formula_witness :
    getBackoffDelay 10 3 = 59049000 ∧ getBackoffDelay 10 = 1024000 :=
  ⟨(getBackoffDelay_formula 10 3 (by decide) (by decide) (Or.inr rfl)).1,
   (getBackoffDelay_formula 10 3 (by decide) (by decide) (Or.inr rfl)).2.1⟩

/-! ## The waits of one worker iteration -/

/-- An iteration whose command fails within the retry budget: `fail` waits
`getBackoffDelay (attempts + 1)` and writes the job pending, and the worker
then waits `getBackoffDelay (attempts + 1)` once more. -/
theorem workerIteration_retry (s : Store) (h : WF s) (j : Job)
    (runCommand : String → Except String String) (err tc t1 t2 : String)
    (hsel : selectPending s = some j) (hrun : runCommand j.command = Except.error err)
    (hle : j.attempts + 1 ≤ j.max_retries) :
    ∃ s0 s1 s2,
      workerIteration s runCommand tc t1 t2
        = Except.ok (s2, [Event.wrote s0, Event.wrote s1,
            Event.slept (getBackoffDelay (j.attempts + 1)), Event.wrote s2,
            Event.slept (getBackoffDelay (j.attempts + 1))]) ∧
      selectById s1 j.id = some { j with state := State.failed, attempts := j.attempts + 1,
                                         updated_at := t1 } ∧
      selectById s2 j.id = some { j with state := State.pending, attempts := j.attempts + 1,
                                         updated_at := t2 } := by
  have hn : ¬ j.attempts + 1 > j.max_retries := Nat.not_lt.mpr hle
  have hmem := (selectPending_some s j hsel).1
  have e0 : selectById (updateWhereId s j.id (fun x => { x with state := State.processing }))
      j.id = some { j with state := State.processing } := by
    rw [selectById_updateWhereId_eq, selectById_of_mem s h j hmem]
    · rfl
    · intro _; rfl
  have e1 : selectById (updateWhereId
        (updateWhereId s j.id (fun x => { x with state := State.processing })) j.id
        (fun x => { x with state := State.failed, attempts := j.attempts + 1,
                           updated_at := t1 })) j.id
      = some { j with state := State.failed, attempts := j.attempts + 1, updated_at := t1 } := by
    rw [selectById_updateWhereId_eq, e0]
    · rfl
    · intro _; rfl
  have e2 : selectById (updateWhereId (updateWhereId
        (updateWhereId s j.id (fun x => { x with state := State.processing })) j.id
        (fun x => { x with state := State.failed, attempts := j.attempts + 1,
                           updated_at := t1 })) j.id
        (fun x => { x with state := State.pending, updated_at := t2 })) j.id
      = some { j with state := State.pending, attempts := j.attempts + 1, updated_at := t2 } := by
    rw [selectById_updateWhereId_eq, e1]
    · rfl
    · intro _; rfl
  refine ⟨updateWhereId s j.id (fun x => { x with state := State.processing }),
    _, _, ?_, e1, e2⟩
  unfold workerIteration
  rw [nextJob_some s j hsel]
  simp only [hrun]
  rw [fail_retry_eq _ j err t1 t2 hn]
  simp only [e2]
  rfl

/-- An iteration that finds no pending job only waits the poll interval. -/
theorem workerIteration_idle (s : Store) (runCommand : String → Except String String)
    (tc t1 t2 : String) (hsel : selectPending s = none) :
    workerIteration s runCommand tc t1 t2 = Except.ok (s, [Event.slept 1000]) := by
  unfold workerIteration
  rw [nextJob_none s hsel]

/-- An iteration whose command succeeds writes the claim and the completion,
and does not wait. -/
theorem workerIteration_success (s : Store) (j : Job)
    (runCommand : String → Except String String) (out tc t1 t2 : String)
    (hsel : selectPending s = some j) (hrun : runCommand j.command = Except.ok out) :
    ∃ s0 s1,
      workerIteration s runCommand tc t1 t2
        = Except.ok (s1, [Event.wrote s0, Event.wrote s1]) ∧
      totalSleep [Event.wrote s0, Event.wrote s1] = 0 := by
  refine ⟨updateWhereId s j.id (fun x => { x with state := State.processing }),
    complete (updateWhereId s j.id (fun x => { x with state := State.processing }))
      j.id out tc, ?_, rfl⟩
  unfold workerIteration
  rw [nextJob_some s j hsel]
  simp only [hrun]

/-- An iteration whose command fails with the budget spent writes the claim
and the dead state, and does not wait. -/
theorem workerIteration_dead (s : Store) (h : WF s) (j : Job)
    (runCommand : String → Except String String) (err tc t1 t2 : String)
    (hsel : selectPending s = some j) (hrun : runCommand j.command = Except.error err)
    (hgt : j.attempts + 1 > j.max_retries) :
    ∃ s0 s1,
      workerIteration s runCommand tc t1 t2
        = Except.ok (s1, [Event.wrote s0, Event.wrote s1]) ∧
      totalSleep [Event.wrote s0, Event.wrote s1] = 0 ∧
      selectById s1 j.id = some { j with state := State.dead, last_error := some err,
                                         updated_at := t1 } := by
  have hmem := (selectPending_some s j hsel).1
  have e0 : selectById (updateWhereId s j.id (fun x => { x with state := State.processing }))
      j.id = some { j with state := State.processing } := by
    rw [selectById_updateWhereId_eq, selectById_of_mem s h j hmem]
    · rfl
    · intro _; rfl
  have e1 : selectById (updateWhereId
        (updateWhereId s j.id (fun x => { x with state := State.processing })) j.id
        (fun x => { x with state := State.dead, last_error := some err,
                           updated_at := t1 })) j.id
      = some { j with state := State.dead, last_error := some err, updated_at := t1 } := by
    rw [selectById_updateWhereId_eq, e0]
    · rfl
    · intro _; rfl
  refine ⟨updateWhereId s j.id (fun x => { x with state := State.processing }),
    _, ?_, rfl, e1⟩
  unfold workerIteration
  rw [nextJob_some s j hsel]
  simp only [hrun]
  rw [fail_dead_eq _ j err t1 t2 hgt]
  simp only [e1]
  rfl

/-- C10, evaluated. The worker claims the pending job `J1` of `oneJob` and its
command fails (first failure, a retry). The iteration suspends for 2000 ms
inside `fail`, writes the job pending, and then suspends for another 2000 ms:
4000 ms in total, twice `getBackoffDelay 1`, with the second wait after the
job is pending again. -/
theorem worker_waits_twice :
    workerIteration oneJob (fun _ => Except.error "boom") "tc" "t1" "t2"
      = Except.ok
          ([{ job1 with state := State.pending, attempts := 1, updated_at := "t2" }],
           [Event.wrote [{ job1 with state := State.processing }],
            Event.wrote [{ job1 with state := State.failed, attempts := 1,
                                     updated_at := "t1" }],
            Event.slept 2000,
            Event.wrote [{ job1 with state := State.pending, attempts := 1,
                                     updated_at := "t2" }],
            Event.slept 2000]) ∧
    getBackoffDelay 1 = 2000 ∧
    totalSleep [Event.wrote [{ job1 with state := State.processing }],
            Event.wrote [{ job1 with state := State.failed, attempts := 1,
                                     updated_at := "t1" }],
            Event.slept 2000,
            Event.wrote [{ job1 with state := State.pending, attempts := 1,
                                     updated_at := "t2" }],
            Event.slept 2000] = 4000 := by
  refine ⟨?_, ?_, ?_⟩ <;> decide

/-! ## Revival from the dead-letter queue (`dlq --retry`) -/

theorem selectDeadById_some (s : Store) (i : String) (d : Job)
    (h : selectDeadById s i = some d) : d ∈ s ∧ d.id = i ∧ d.state = State.dead := by
  unfold selectDeadById at h
  have hp := List.find?_some h
  simp only [Bool.and_eq_true, decide_eq_true_eq] at hp
  exact ⟨List.mem_of_find?_eq_some h, hp.1, hp.2⟩

theorem selectDeadById_of_dead (s : Store) (h : WF s) (i : String) (j : Job)
    (hj : selectById s i = some j) (hd : j.state = State.dead) :
    selectDeadById s i = some j := by
  obtain ⟨hmem, hid⟩ := selectById_some s i j hj
  cases hsel : selectDeadById s i with
  | none =>
    unfold selectDeadById at hsel
    rw [List.find?_eq_none] at hsel
    have := hsel j hmem
    simp [hid, hd] at this
  | some d =>
    obtain ⟨dm, di, _⟩ := selectDeadById_some s i d hsel
    have := selectById_of_mem s h d dm
    rw [di, hj] at this
    rw [Option.some.inj this]

theorem selectDeadById_of_not_dead (s : Store) (h : WF s) (i : String)
    (hj : selectById s i = none ∨ ∃ j, selectById s i = some j ∧ j.state ≠ State.dead) :
    selectDeadById s i = none := by
  cases hsel : selectDeadById s i with
  | none => rfl
  | some d =>
    obtain ⟨dm, di, dd⟩ := selectDeadById_some s i d hsel
    have hd := selectById_of_mem s h d dm
    rw [di] at hd
    rcases hj with hj | ⟨j, hj, hs⟩
    · rw [hj] at hd
      cases hd
    · rw [hj] at hd
      cases hd
      exact absurd dd hs

theorem truthy_some (i : String) (h : i ≠ "") : truthy (some i) = some i := by
  simp [truthy, Option.filter, h]

/-- The only pending job of a table is the one `nextJob` reads. -/
theorem selectPending_of_only (s : Store) (j : Job) (hmem : j ∈ s)
    (hp : j.state = State.pending) (honly : ∀ x ∈ s, x.state = State.pending → x = j) :
    selectPending s = some j := by
  cases hsel : selectPending s with
  | none => exact absurd hp ((selectPending_none s).mp hsel j hmem)
  | some y =>
    obtain ⟨ym, yp⟩ := selectPending_some s y hsel
    rw [honly y ym yp]

theorem mem_updateWhereId (s : Store) (id : String) (f : Job → Job) (x : Job)
    (hx : x ∈ updateWhereId s id f) :
    ∃ y ∈ s, x = if y.id = id then f y else y := by
  unfold updateWhereId at hx
  obtain ⟨y, hy, e⟩ := List.mem_map.mp hx
  exact ⟨y, hy, e.symm⟩

/-- C7, amended. For every table satisfying the primary key constraint and
every non-empty id, the action `dlq --retry id`: if the id names a dead job,
exits normally and leaves that job pending with `attempts = 0`, `last_error`
null and a fresh `updated_at`, every other field (id, command, `max_retries`
among them) and every other job unchanged, and when no other job is pending
the next `nextJob` returns the revived job; if the id names no job, or a job
that is not dead, exits with status 1, reporting that no dead job has the id,
and leaves the table unchanged. With the empty string as id the action, on
every table, reports the usage line, exits with status 0 and leaves the table
unchanged. -/
theorem dlq_retry (s : Store) (id t : String) :
    (WF s → id ≠ "" →
    (∀ j, selectById s id = some j → j.state = State.dead →
      (dlq s { list := false, retry := some id } t).exitCode = 0 ∧
      selectById (dlq s { list := false, retry := some id } t).store id
        = some { j with state := State.pending, attempts := 0, last_error := none,
                        updated_at := t } ∧
      ids (dlq s { list := false, retry := some id } t).store = ids s ∧
      (∀ i, i ≠ id →
        selectById (dlq s { list := false, retry := some id } t).store i = selectById s i) ∧
      ((∀ x ∈ s, x.state ≠ State.pending) →
        (nextJob (dlq s { list := false, retry := some id } t).store).1
          = some { j with state := State.pending, attempts := 0, last_error := none,
                          updated_at := t })) ∧
    ((selectById s id = none ∨ ∃ j, selectById s id = some j ∧ j.state ≠ State.dead) →
      dlq s { list := false, retry := some id } t
        = { store := s, exitCode := 1, report := DlqReport.noDeadJob id })) ∧
    dlq s { list := false, retry := some "" } t
      = { store := s, exitCode := 0, report := DlqReport.usage } := by
  refine ⟨fun h hid => ?_, by simp [dlq, truthy, Option.filter]⟩
  constructor
  · intro j hj hd
    have hsel := selectDeadById_of_dead s h id j hj hd
    have e : dlq s { list := false, retry := some id } t
        = { store := updateWhereId s id (fun x =>
              { x with state := State.pending, attempts := 0, last_error := none,
                       updated_at := t }),
            exitCode := 0, report := DlqReport.retried id } := by
      simp [dlq, truthy_some id hid, hsel]
    rw [e]
    have hrow : selectById (updateWhereId s id (fun x =>
          { x with state := State.pending, attempts := 0, last_error := none,
                   updated_at := t })) id
        = some { j with state := State.pending, attempts := 0, last_error := none,
                        updated_at := t } := by
      rw [selectById_updateWhereId_eq, hj]
      · rfl
      · intro _; rfl
    refine ⟨rfl, hrow, ?_, fun i hi => ?_, fun hnone => ?_⟩
    · exact ids_updateWhereId s id _ (by intro _; rfl)
    · exact selectById_updateWhereId_ne s id i _ (by intro _; rfl) hi
    · have hm := (selectById_some _ _ _ hrow).1
      have hsp := selectPending_of_only _ _ hm rfl (by
        intro x hx hxp
        obtain ⟨y, hy, rfl⟩ := mem_updateWhereId s id _ x hx
        by_cases hyi : y.id = id
        · have := selectById_of_mem s h y hy
          rw [hyi, hj] at this
          cases this
          rw [if_pos hyi]
        · rw [if_neg hyi] at hxp
          exact absurd hxp (hnone y hy))
      show (nextJob (updateWhereId s id _)).1 = _
      rw [nextJob_some _ _ hsp]
  · intro hj
    have hsel := selectDeadById_of_not_dead s h id hj
    simp [dlq, truthy_some id hid, hsel]

/-- C7, amended, at the table `deadJob`: with the id `J1` the job is revived,
and then claimed; with the empty id the usage line is reported and the table
is as it was. -/
theorem dlq_retry_witness :
    WF deadJob ∧ "J1" ≠ "" ∧
    (dlq deadJob { list := false, retry := some "J1" } "t9").exitCode = 0 ∧
    (nextJob (dlq deadJob { list := false, retry := some "J1" } "t9").store).1
      = some { job1 with state := State.pending, attempts := 0, last_error := none,
                         updated_at := "t9" } ∧
    dlq deadJob { list := false, retry := some "" } "t9"
      = { store := deadJob, exitCode := 0, report := DlqReport.usage } :=
  ⟨by decide, by decide,
    (((dlq_retry deadJob "J1" "t9").1 (by decide) (by decide)).1
      { job1 with state := State.dead, attempts := 3, last_error := some "e4" }
      (by decide) rfl).1,
    (((dlq_retry deadJob "J1" "t9").1 (by decide) (by decide)).1
      { job1 with state := State.dead, attempts := 3, last_error := some "e4" }
      (by decide) rfl).2.2.2.2 (by decide),
    (dlq_retry deadJob "J1" "t9").2⟩

/-- C7, refuted as stated. With the empty id, which names no job of the empty
table, `dlq --retry` does not fail: it reports the usage line and exits with
status 0. -/
theorem dlq_empty_id_usage :
    selectById [] "" = none ∧
    dlq [] { list := false, retry := some "" } "t9"
      = { store := [], exitCode := 0, report := DlqReport.usage } := by
  constructor <;> decide

/-! ## Completed jobs -/

theorem selectById_append (s l : Store) (i : String) (j : Job)
    (h : selectById s i = some j) : selectById (s ++ l) i = some j := by
  unfold selectById at h ⊢
  rw [List.find?_append, h]
  rfl

theorem selectById_enqueue (s : Store) (job : EnqueueInput) (dateNow : Nat)
    (t1 t2 t3 i : String) (j : Job) (h : selectById s i = some j) :
    selectById (storeAfter s (enqueue s job dateNow t1 t2 t3)) i = some j := by
  unfold enqueue insertJob
  cases job.command with
  | none => exact h
  | some c =>
    by_cases hid : enqueueId job dateNow ∈ ids s
    · simp only [hid, if_true]
      exact h
    · simp only [hid, if_false]
      exact selectById_append s _ i j h

theorem selectById_dlq_not_dead (s : Store) (h : WF s) (opts : DlqOpts) (t : String)
    (j : Job) (hmem : j ∈ s) (hs : j.state ≠ State.dead) :
    selectById (dlq s opts t).store j.id = some j := by
  have hrow := selectById_of_mem s h j hmem
  by_cases hl : opts.list = true
  · have e : (dlq s opts t).store = s := by simp [dlq, hl]
    rw [e]
    exact hrow
  · cases htr : truthy opts.retry with
    | none =>
      have e : (dlq s opts t).store = s := by simp [dlq, hl, htr]
      rw [e]
      exact hrow
    | some id =>
      cases hsel : selectDeadById s id with
      | none =>
        have e : (dlq s opts t).store = s := by simp [dlq, hl, htr, hsel]
        rw [e]
        exact hrow
      | some d =>
        obtain ⟨dm, di, dd⟩ := selectDeadById_some s id d hsel
        have hne : j.id ≠ id := by
          intro e
          have := selectById_of_mem s h d dm
          rw [di, ← e, hrow] at this
          cases this
          exact hs dd
        have e : (dlq s opts t).store = updateWhereId s id (fun x =>
            { x with state := State.pending, attempts := 0, last_error := none,
                     updated_at := t }) := by
          simp [dlq, hl, htr, hsel]
        rw [e, selectById_updateWhereId_ne]
        · exact hrow
        · intro _; rfl
        · exact hne

theorem ids_dlq (s : Store) (opts : DlqOpts) (t : String) :
    ids (dlq s opts t).store = ids s := by
  unfold dlq
  split
  · rfl
  · split
    · split
      · rfl
      · exact ids_updateWhereId s _ _ (by intro _; rfl)
    · rfl

theorem WF_dlq (s : Store) (h : WF s) (opts : DlqOpts) (t : String) :
    WF (dlq s opts t).store := by
  unfold WF
  rw [ids_dlq]
  exact h

/-- C8, refuted as stated. The job `J1` of `doneJob` is completed with output
`out`. `complete` called with its id raises no error and overwrites its output
and `updated_at`; `fail` called with its id leaves it pending with one more
attempt. -/
theorem complete_overwrites_completed :
    selectById doneJob "J1"
      = some { job1 with state := State.completed, output := some "out" } ∧
    selectById (complete doneJob "J1" "new" "t9") "J1"
      = some { job1 with state := State.completed, output := some "new",
                         updated_at := "t9" } ∧
    selectById (fail doneJob { job1 with state := State.completed, output := some "out" }
        "err" "t1" "t2").1 "J1"
      = some { job1 with state := State.pending, attempts := 1, output := some "out",
                         updated_at := "t2" } := by
  refine ⟨?_, ?_, ?_⟩ <;> decide

/-- C8, amended. For every table satisfying the primary key constraint and
every completed job `j` in it: `enqueue`, `nextJob` and the `dlq` action, with
any arguments, and `complete` and `fail` called with another id, change no
field of `j`. `complete` and `fail` check no state: `complete` called with the
id of `j` overwrites its `output` and `updated_at`, and `fail` called with a
job object of that id leaves it dead or pending. -/
theorem completed_stable (s : Store) (h : WF s) (j : Job) (hmem : j ∈ s)
    (hc : j.state = State.completed) :
    (∀ (job : EnqueueInput) (dateNow : Nat) (t1 t2 t3 : String),
      selectById (storeAfter s (enqueue s job dateNow t1 t2 t3)) j.id = some j) ∧
    selectById (nextJob s).2 j.id = some j ∧
    (∀ (opts : DlqOpts) (t : String), selectById (dlq s opts t).store j.id = some j) ∧
    (∀ id out t : String, id ≠ j.id → selectById (complete s id out t) j.id = some j) ∧
    (∀ (job : Job) (err t1 t2 : String), job.id ≠ j.id →
      selectById (fail s job err t1 t2).1 j.id = some j) ∧
    (∀ out t : String,
      selectById (complete s j.id out t) j.id
        = some { j with output := some out, updated_at := t }) ∧
    (∀ (job : Job) (err t1 t2 : String), job.id = j.id →
      ∃ x, selectById (fail s job err t1 t2).1 j.id = some x ∧
        (x.state = State.dead ∨ x.state = State.pending)) := by
  have hrow := selectById_of_mem s h j hmem
  have hnp : j.state ≠ State.pending := by rw [hc]; decide
  have hnd : j.state ≠ State.dead := by rw [hc]; decide
  refine ⟨fun job dateNow t1 t2 t3 => selectById_enqueue s job dateNow t1 t2 t3 j.id j hrow,
    (nextJob_not_pending s h j.id j hrow hnp).2,
    fun opts t => selectById_dlq_not_dead s h opts t j hmem hnd,
    fun id out t hne => ?_, fun job err t1 t2 hne => ?_, fun out t => ?_,
    fun job err t1 t2 he => ?_⟩
  · unfold complete
    rw [selectById_updateWhereId_ne]
    · exact hrow
    · intro _; rfl
    · exact Ne.symm hne
  · rw [selectById_fail_ne s job err t1 t2 j.id (Ne.symm hne)]
    exact hrow
  · unfold complete
    rw [selectById_updateWhereId_eq, hrow]
    · simp [hc]
    · intro _; rfl
  · by_cases hgt : job.attempts + 1 > job.max_retries
    · rw [fail_dead_eq s job err t1 t2 hgt, he]
      refine ⟨{ j with state := State.dead, last_error := some err, updated_at := t1 },
        ?_, Or.inl rfl⟩
      show selectById (updateWhereId s j.id _) j.id = _
      rw [selectById_updateWhereId_eq, hrow]
      · rfl
      · intro _; rfl
    · rw [fail_retry_eq s job err t1 t2 hgt, he]
      refine ⟨{ j with state := State.pending, attempts := job.attempts + 1,
                       updated_at := t2 }, ?_, Or.inr rfl⟩
      show selectById (updateWhereId (updateWhereId s j.id _) j.id _) j.id = _
      rw [selectById_updateWhereId_eq, selectById_updateWhereId_eq, hrow]
      · rfl
      · intro _; rfl
      · intro _; rfl

/-- C8, amended, at the table `doneJob`: after `nextJob` the completed job `J1`
is as it was. -/
theorem completed_stable_witness :
    WF doneJob ∧
    selectById (nextJob doneJob).2 "J1"
      = some { job1 with state := State.completed, output := some "out" } :=
  ⟨by decide,
    (completed_stable doneJob (by decide)
      { job1 with state := State.completed, output := some "out" } (by decide) rfl).2.1⟩

end QueueCTL
